import Mathlib

/-!
Shallow embedding of the Go package `cachecontrolheader` (final version:
`Parse` / `ParseStrict` with the functional options `IgnoreUnknownDirectives`
and `IgnoreInvalidValues`).  Go strings are modelled as `List Char`; the Go
standard-library helpers used by the package (`strings.ToLower`,
`strings.ReplaceAll(_, " ", "")`, `strings.Split(_, ",")`,
`strings.SplitN(_, "=", 2)`, `strings.TrimSpace`, `strings.Join(_, ", ")` and
`time.ParseDuration`) are embedded alongside the package's own functions.
`time.Duration` (an `int64` count of nanoseconds) is modelled as `Int`, with
the overflow guards of Go's `ParseDuration` made explicit against `2 ^ 63`.
-/

namespace cachecontrolheader

/-- Models `unicode.ToLower` as applied rune-wise by `strings.ToLower`, for
the ASCII range (every directive name and every input in this development is
ASCII). -/
def toLowerChar (c : Char) : Char :=
  if 65 ≤ c.toNat ∧ c.toNat ≤ 90 then Char.ofNat (c.toNat + 32) else c

/-- Models `strings.ToLower` (rune-wise lowering). -/
def toLowerGo (l : List Char) : List Char := l.map toLowerChar

/-- Models `strings.ReplaceAll(s, " ", "")`: removes every space character. -/
def removeSpacesGo (l : List Char) : List Char := l.filter (fun c => c != ' ')

/-- Models `unicode.IsSpace` on the code points Go treats as white space
(the ASCII spaces plus U+0085 and U+00A0). -/
def isSpaceGo (c : Char) : Bool :=
  c = ' ' || c = '\t' || c = '\n' || c.toNat = 11 || c.toNat = 12 ||
    c = '\r' || c.toNat = 133 || c.toNat = 160

/-- Models `strings.TrimSpace`: drops leading and trailing white space. -/
def trimSpaceGo (l : List Char) : List Char :=
  ((l.dropWhile isSpaceGo).reverse.dropWhile isSpaceGo).reverse

/-- Models `strings.Split(s, ",")`.  As in Go, `splitComma [] = [[]]` and a
separator at either end produces an empty token. -/
def splitComma : List Char → List (List Char)
  | [] => [[]]
  | c :: rest =>
    if c = ',' then [] :: splitComma rest
    else
      match splitComma rest with
      | [] => [[c]]
      | t :: ts => (c :: t) :: ts

/-- Models `strings.SplitN(d, "=", 2)`: `(d, none)` when `d` has no `=`,
otherwise the part before the first `=` and the part after it. -/
def splitN2Eq : List Char → List Char × Option (List Char)
  | [] => ([], none)
  | c :: rest =>
    if c = '=' then ([], some rest)
    else
      let p := splitN2Eq rest
      (c :: p.1, p.2)

/-- Models `strings.Join(ds, ", ")`. -/
def joinCommaSpace : List (List Char) → List Char
  | [] => []
  | [d] => d
  | d :: rest => d ++ ',' :: ' ' :: joinCommaSpace rest

/-- Models Go's `time.leadingInt`: consumes leading decimal digits into a
`uint64` accumulator, failing (like Go) once the accumulator would pass
`1<<63`.  Returns the value and the unconsumed remainder, or `none` on
overflow. -/
def leadingInt : Nat → List Char → Option (Nat × List Char)
  | x, [] => some (x, [])
  | x, c :: rest =>
    if c.toNat < 48 ∨ 57 < c.toNat then some (x, c :: rest)
    else if x > 2 ^ 63 / 10 then none
    else
      let x' := x * 10 + (c.toNat - 48)
      if x' > 2 ^ 63 then none
      else leadingInt x' rest

/-- Models Go's `time.leadingFraction`: consumes leading decimal digits,
tracking a power-of-ten scale, silently stopping accumulation on overflow.
Returns the digits' value, the scale and the unconsumed remainder. -/
def leadingFraction : Nat → Nat → Bool → List Char → Nat × Nat × List Char
  | x, scale, _, [] => (x, scale, [])
  | x, scale, overflow, c :: rest =>
    if c.toNat < 48 ∨ 57 < c.toNat then (x, scale, c :: rest)
    else if overflow then leadingFraction x scale true rest
    else if x > (2 ^ 63 - 1) / 10 then leadingFraction x scale true rest
    else
      let y := x * 10 + (c.toNat - 48)
      if y > 2 ^ 63 then leadingFraction x scale true rest
      else leadingFraction y (scale * 10) false rest

/-- Models Go's `time.unitMap`: nanoseconds per unit name. -/
def unitMap (u : List Char) : Option Nat :=
  if u = "ns".toList then some 1
  else if u = "us".toList then some 1000
  else if u = "µs".toList then some 1000
  else if u = "μs".toList then some 1000
  else if u = "ms".toList then some 1000000
  else if u = "s".toList then some 1000000000
  else if u = "m".toList then some 60000000000
  else if u = "h".toList then some 3600000000000
  else none

/-- One `(number unit)+` loop of Go's `time.ParseDuration`, accumulating the
total `d` in nanoseconds (`uint64` semantics: explicit `2 ^ 63` guards).  The
fractional contribution, which Go computes as
`uint64(float64(f) * (float64(unit) / scale))`, is modelled by the exact
truncated quotient `f * unit / scale`; the two agree whenever the float64
computation is exact, as it is at every input evaluated in this development.
The `fuel` argument only makes the recursion structural: it starts at
`length + 1` and every loop iteration consumes at least one character, so it
never runs out on any reachable path. -/
def parseDurationTerms : Nat → Nat → List Char → Option Nat
  | 0, _, _ => none
  | _ + 1, d, [] => some d
  | fuel + 1, d, c :: cs =>
    if ¬(c = '.' ∨ (48 ≤ c.toNat ∧ c.toNat ≤ 57)) then none
    else
      match leadingInt 0 (c :: cs) with
      | none => none
      | some (v, s1) =>
        let pre := s1.length != (c :: cs).length
        let fsr :=
          match s1 with
          | '.' :: s1' =>
            let r := leadingFraction 0 1 false s1'
            (r.1, r.2.1, r.2.2, r.2.2.length != s1'.length)
          | _ => (0, 1, s1, false)
        let f := fsr.1
        let scale := fsr.2.1
        let s2 := fsr.2.2.1
        let post := fsr.2.2.2
        if !pre && !post then none
        else
          let u := s2.takeWhile (fun ch => ¬(ch = '.' ∨ (48 ≤ ch.toNat ∧ ch.toNat ≤ 57)))
          let s3 := s2.dropWhile (fun ch => ¬(ch = '.' ∨ (48 ≤ ch.toNat ∧ ch.toNat ≤ 57)))
          if u = [] then none
          else
            match unitMap u with
            | none => none
            | some unit =>
              if v > 2 ^ 63 / unit then none
              else
                let v1 := if f > 0 then v * unit + f * unit / scale else v * unit
                if f > 0 ∧ v1 > 2 ^ 63 then none
                else
                  let d1 := d + v1
                  if d1 > 2 ^ 63 then none
                  else parseDurationTerms fuel d1 s3

/-- Models Go's `time.ParseDuration`, returning the duration in nanoseconds
(`some`) or `none` for the error return. -/
def parseDuration (s : List Char) : Option Int :=
  let signed :=
    match s with
    | '-' :: rest => (true, rest)
    | '+' :: rest => (false, rest)
    | _ => (false, s)
  let neg := signed.1
  let s := signed.2
  if s = ['0'] then some 0
  else if s = [] then none
  else
    match parseDurationTerms (s.length + 1) 0 s with
    | none => none
    | some d =>
      if neg then some (-(d : Int))
      else if d > 2 ^ 63 - 1 then none
      else some (d : Int)

/-- The directive-name constant `dMaxAge`. -/
def dMaxAge : List Char := "max-age".toList

/-- The directive-name constant `dMaxStale`. -/
def dMaxStale : List Char := "max-stale".toList

/-- The directive-name constant `dMinFresh`. -/
def dMinFresh : List Char := "min-fresh".toList

/-- The directive-name constant `dNoCache`. -/
def dNoCache : List Char := "no-cache".toList

/-- The directive-name constant `dNoStore`. -/
def dNoStore : List Char := "no-store".toList

/-- The directive-name constant `dNoTransform`. -/
def dNoTransform : List Char := "no-transform".toList

/-- The directive-name constant `dOnlyIfCached`. -/
def dOnlyIfCached : List Char := "only-if-cached".toList

/-- The directive-name constant `dMustRevalidate`. -/
def dMustRevalidate : List Char := "must-revalidate".toList

/-- The directive-name constant `dMustUnderstand`. -/
def dMustUnderstand : List Char := "must-understand".toList

/-- The directive-name constant `dPrivate`. -/
def dPrivate : List Char := "private".toList

/-- The directive-name constant `dProxyRevalidate`. -/
def dProxyRevalidate : List Char := "proxy-revalidate".toList

/-- The directive-name constant `dPublic`. -/
def dPublic : List Char := "public".toList

/-- The directive-name constant `dSMaxAge`. -/
def dSMaxAge : List Char := "s-maxage".toList

/-- The `option` configuration record built by applying the functional
options; both toggles default to `false` as in the Go zero value. -/
structure option where
  ignoreUnknownDirectives : Bool := false
  ignoreInvalidValues : Bool := false
deriving DecidableEq

/-- The functional option type `parseOption`. -/
def parseOption := option → option

/-- The `IgnoreUnknownDirectives` option. -/
def IgnoreUnknownDirectives : parseOption :=
  fun o => { o with ignoreUnknownDirectives := true }

/-- The `IgnoreInvalidValues` option. -/
def IgnoreInvalidValues : parseOption :=
  fun o => { o with ignoreInvalidValues := true }

/-- The `Header` record.  `*time.Duration` fields become `Option Int`
(nanoseconds); all fields default to the Go zero value. -/
structure Header where
  MaxAge : Option Int := none
  MaxStale : Option Int := none
  MinFresh : Option Int := none
  NoCache : Bool := false
  NoStore : Bool := false
  NoTransform : Bool := false
  OnlyIfCached : Bool := false
  MustRevalidate : Bool := false
  MustUnderstand : Bool := false
  Private : Bool := false
  ProxyRevalidate : Bool := false
  Public : Bool := false
  SMaxAge : Option Int := none
deriving DecidableEq

/-- The two error shapes produced by `parse`:
`unknown directive: <token>` and
`failed to parse the value of directive(<key>=<value>): <cause>`. -/
inductive ParseError where
  | unknownDirective (token : List Char)
  | invalidValue (key value : List Char)
deriving DecidableEq

/-- The body of `parse`'s per-directive loop: splits the token on the first
`=`, then runs either the boolean-directive switch or the valued-directive
conversion and switch, exactly as in the Go source.  `Except.error` models
the early `return nil, err`. -/
def processDirective (o : option) (h : Header) (d : List Char) :
    Except ParseError Header :=
  match splitN2Eq d with
  | (tok, none) =>
    if tok = dNoCache then .ok { h with NoCache := true }
    else if tok = dNoStore then .ok { h with NoStore := true }
    else if tok = dOnlyIfCached then .ok { h with OnlyIfCached := true }
    else if tok = dMustRevalidate then .ok { h with MustRevalidate := true }
    else if tok = dMustUnderstand then .ok { h with MustUnderstand := true }
    else if tok = dPrivate then .ok { h with Private := true }
    else if tok = dProxyRevalidate then .ok { h with ProxyRevalidate := true }
    else if tok = dPublic then .ok { h with Public := true }
    else if o.ignoreUnknownDirectives then .ok h
    else .error (.unknownDirective tok)
  | (k, some vraw) =>
    match parseDuration (trimSpaceGo vraw ++ ['s']) with
    | none =>
      if o.ignoreInvalidValues then .ok h
      else .error (.invalidValue k vraw)
    | some v =>
      if k = dMaxAge then .ok { h with MaxAge := some v }
      else if k = dMaxStale then .ok { h with MaxStale := some v }
      else if k = dMinFresh then .ok { h with MinFresh := some v }
      else if k = dSMaxAge then .ok { h with SMaxAge := some v }
      else if o.ignoreUnknownDirectives then .ok h
      else .error (.unknownDirective k)

/-- The directive loop of `parse`: threads the header through
`processDirective`, stopping at the first error with a `nil` header, as the
Go loop's early `return nil, err` does. -/
def processDirectives (o : option) (h : Header) :
    List (List Char) → Option Header × Option ParseError
  | [] => (some h, none)
  | d :: rest =>
    match processDirective o h d with
    | .ok h' => processDirectives o h' rest
    | .error e => (none, some e)

/-- The internal `parse` function: applies the options to the zero `option`,
normalizes the input with `strings.ToLower(strings.ReplaceAll(header, " ", ""))`,
returns the zero `Header` on empty input, and otherwise runs the directive
loop on the comma-split tokens.  The pair models Go's `(*Header, error)`
return. -/
def parse (header : List Char) (opts : List parseOption) :
    Option Header × Option ParseError :=
  let o := opts.foldl (fun acc f => f acc) {}
  let header := toLowerGo (removeSpacesGo header)
  if header = [] then (some {}, none)
  else processDirectives o {} (splitComma header)

/-- The lenient entry point `Parse`: `h, _ := parse(header,
IgnoreInvalidValues(), IgnoreUnknownDirectives()); return h`. -/
def Parse (header : List Char) : Option Header :=
  (parse header [IgnoreInvalidValues, IgnoreUnknownDirectives]).1

/-- The strict entry point `ParseStrict`: passes its options straight to
`parse`. -/
def ParseStrict (header : List Char) (opts : List parseOption) :
    Option Header × Option ParseError :=
  parse header opts

/-- Decimal rendering of a duration's whole-second count, modelling
`fmt.Sprintf("%d", int(d.Seconds()))`.  `int(d.Seconds())` truncates toward
zero; the truncated quotient by `10 ^ 9` agrees with it exactly on
whole-second durations, the only durations this development evaluates it
on. -/
def secondsDecimal (v : Int) : List Char :=
  if v < 0 then '-' :: Nat.toDigits 10 (Int.natAbs (Int.tdiv v 1000000000))
  else Nat.toDigits 10 (Int.toNat (Int.tdiv v 1000000000))

/-- The `Header.String` method: emits each non-default field in the source's
fixed order and joins with a comma and space. -/
def Header.String (h : Header) : List Char :=
  let ds : List (List Char) :=
    (match h.MaxAge with
     | some v => [dMaxAge ++ '=' :: secondsDecimal v]
     | none => []) ++
    (match h.MaxStale with
     | some v => [dMaxStale ++ '=' :: secondsDecimal v]
     | none => []) ++
    (match h.MinFresh with
     | some v => [dMinFresh ++ '=' :: secondsDecimal v]
     | none => []) ++
    (if h.NoCache then [dNoCache] else []) ++
    (if h.NoStore then [dNoStore] else []) ++
    (if h.NoTransform then [dNoTransform] else []) ++
    (if h.OnlyIfCached then [dOnlyIfCached] else []) ++
    (if h.MustRevalidate then [dMustRevalidate] else []) ++
    (if h.MustUnderstand then [dMustUnderstand] else []) ++
    (if h.Private then [dPrivate] else []) ++
    (if h.ProxyRevalidate then [dProxyRevalidate] else []) ++
    (if h.Public then [dPublic] else []) ++
    (match h.SMaxAge with
     | some v => [dSMaxAge ++ '=' :: secondsDecimal v]
     | none => [])
  joinCommaSpace ds

/-- What the strict default configuration would report for one directive
token, independent of the header state: `some e` if processing the token
errors, `none` if it succeeds. -/
def classifyStrict (d : List Char) : Option ParseError :=
  match processDirective {} {} d with
  | .ok _ => none
  | .error e => some e

theorem toNat_ofNat_valid (n : Nat) (h : n < 55296) : (Char.ofNat n).toNat = n := by
  have hv : Nat.isValidChar n := Or.inl h
  rw [Char.ofNat, dif_pos hv]
  simp [Char.ofNatAux, Char.toNat, UInt32.toNat, BitVec.toNat_ofNatLt]

/-- C1: contrary to the claim, `no-transform` is not in the boolean switch of
`parse`: lenient `Parse "no-transform"` leaves `NoTransform` at `false`
(returning the all-default header) and strict parse fails with an
unknown-directive error naming the token — even though `Header.String` emits
exactly this token for the `NoTransform` flag, so the code contradicts its
own formatter. -/
theorem C1_no_transform_not_parsed :
    Parse ("no-transform".toList) = some {} ∧
    ParseStrict ("no-transform".toList) [] =
      (none, some (.unknownDirective ("no-transform".toList))) ∧
    ({} : Header).NoTransform = false ∧
    Header.String { NoTransform := true } = "no-transform".toList := by
  refine ⟨by decide, by decide, rfl, by decide⟩

/-- C2 counterexample: the claim says a fractional value such as
`max-age=1.5` is invalid — rejected by strict parse and dropped by lenient
parse.  In fact strict parse returns no error on it and lenient parse
populates `MaxAge` with 1.5 seconds (1500000000 ns). -/
theorem C2_counterexample_fractional_accepted :
    (ParseStrict ("max-age=1.5".toList) []).2 = none ∧
    (Parse ("max-age=1.5".toList)).map (fun h => h.MaxAge) =
      some (some 1500000000) := by
  refine ⟨by decide, by decide⟩

/-- C2 (amended): a valued directive's field is populated iff the value text,
suffixed with `s`, parses as a Go duration literal.  Non-numeric text
(`max-age=invalid`) and a value carrying its own unit suffix (`max-age=10s`)
are rejected by strict parse and dropped by lenient parse, but fractional
(`max-age=1.5`) and negative (`max-age=-5`) values are accepted and populate
the field. -/
theorem C2_value_validity_amended :
    ParseStrict ("max-age=invalid".toList) [] =
      (none, some (.invalidValue ("max-age".toList) ("invalid".toList))) ∧
    Parse ("max-age=invalid".toList) = some {} ∧
    ParseStrict ("max-age=10s".toList) [] =
      (none, some (.invalidValue ("max-age".toList) ("10s".toList))) ∧
    Parse ("max-age=10s".toList) = some {} ∧
    ParseStrict ("max-age=1.5".toList) [] =
      (some { MaxAge := some 1500000000 }, none) ∧
    ParseStrict ("max-age=-5".toList) [] =
      (some { MaxAge := some (-5000000000) }, none) := by
  refine ⟨by decide, by decide, by decide, by decide, by decide, by decide⟩

/-- C4: the round-trip claim `Parse (h.String) = h` fails on the code.  The
header with only `NoTransform = true` formats to `no-transform`, which
lenient parse drops as an unknown directive, yielding the all-default header
instead of `h`.  (The all-default part of the claim does hold: the default
header formats to the empty string and parses back to itself.) -/
theorem C4_roundtrip_fails_on_no_transform :
    Header.String { NoTransform := true } = "no-transform".toList ∧
    Parse (Header.String { NoTransform := true }) = some {} ∧
    ({} : Header) ≠ ({ NoTransform := true } : Header) ∧
    Header.String {} = [] ∧
    Parse (Header.String {}) = some {} := by
  refine ⟨by decide, by decide, by decide, by decide, by decide⟩

/-- C7: empty tokens from consecutive or trailing commas go through the same
classification and fail the lookup as unknown: strict parse of `private,`
fails with an unknown-directive error whose token is the empty string, while
lenient parse drops the empty token and keeps the remaining directives (also
shown for a consecutive-comma input). -/
theorem C7_empty_tokens_are_unknown :
    ParseStrict ("private,".toList) [] = (none, some (.unknownDirective [])) ∧
    Parse ("private,".toList) = some { Private := true } ∧
    Parse ("no-cache,,private".toList) =
      some { NoCache := true, Private := true } := by
  refine ⟨by decide, by decide, by decide⟩

/-- C8: a value-bearing token whose key is a boolean directive name is routed
through the valued-key lookup only: for `private=5` the value converts
successfully (`5s` = 5000000000 ns), the key fails the four-name valued
lookup, strict parse fails with an unknown-directive error naming the key,
lenient parse drops the token, and `Private` stays `false`.  The same holds
for every name of the boolean switch. -/
theorem C8_boolean_key_with_value_is_unknown :
    parseDuration (trimSpaceGo ("5".toList) ++ ['s']) = some 5000000000 ∧
    ParseStrict ("private=5".toList) [] =
      (none, some (.unknownDirective ("private".toList))) ∧
    Parse ("private=5".toList) = some {} ∧
    ({} : Header).Private = false ∧
    ∀ b ∈ [dNoCache, dNoStore, dOnlyIfCached, dMustRevalidate,
        dMustUnderstand, dPrivate, dProxyRevalidate, dPublic],
      ParseStrict (b ++ '=' :: ("5".toList)) [] =
        (none, some (.unknownDirective b)) := by
  refine ⟨by decide, by decide, by decide, rfl, by decide⟩

/-- Witness for `C8_boolean_key_with_value_is_unknown` at the boolean name
`private`. -/
theorem C8_boolean_key_with_value_is_unknown_witness :
    dPrivate ∈ [dNoCache, dNoStore, dOnlyIfCached, dMustRevalidate,
      dMustUnderstand, dPrivate, dProxyRevalidate, dPublic] ∧
    ParseStrict (dPrivate ++ '=' :: ("5".toList)) [] =
      (none, some (.unknownDirective dPrivate)) :=
  ⟨by decide,
    C8_boolean_key_with_value_is_unknown.2.2.2.2 dPrivate (by decide)⟩

/-- C10: because the value text is converted by appending `s` and delegating
to Go's `time.ParseDuration`, `max-age=1m` is accepted rather than rejected:
strict parse succeeds and `MaxAge` is one millisecond (1000000 ns), since
`1m` + `s` parses as the duration `1ms`. -/
theorem C10_unit_suffix_reinterpreted :
    ParseStrict ("max-age=1m".toList) [] =
      (some { MaxAge := some 1000000 }, none) ∧
    Parse ("max-age=1m".toList) = some { MaxAge := some 1000000 } ∧
    parseDuration ("1ms".toList) = some 1000000 := by
  refine ⟨by decide, by decide, by decide⟩

theorem processDirective_ignoreAll_ok (h : Header) (d : List Char) :
    ∃ h', processDirective ⟨true, true⟩ h d = .ok h' := by
  rw [processDirective.eq_def]
  rcases hs : splitN2Eq d with ⟨tok, _ | vraw⟩
  · dsimp only
    split_ifs <;> first
      | exact ⟨_, rfl⟩
      | exact absurd rfl (by assumption)
  · dsimp only
    cases hpd : parseDuration (trimSpaceGo vraw ++ ['s'])
    · exact ⟨h, rfl⟩
    · split_ifs <;> first
        | exact ⟨_, rfl⟩
        | exact absurd rfl (by assumption)

theorem processDirectives_ignoreAll_ok (h : Header) (ts : List (List Char)) :
    ∃ h', processDirectives ⟨true, true⟩ h ts = (some h', none) := by
  induction ts generalizing h with
  | nil => exact ⟨h, rfl⟩
  | cons d rest ih =>
    obtain ⟨h1, hd⟩ := processDirective_ignoreAll_ok h d
    obtain ⟨h2, hrest⟩ := ih h1
    exact ⟨h2, by rw [processDirectives, hd]; exact hrest⟩

theorem parse_ignoreAll (s : List Char) (opts : List parseOption)
    (hopts : opts.foldl (fun acc f => f acc) {} = ⟨true, true⟩) :
    ∃ h, parse s opts = (some h, none) := by
  rw [parse, hopts]
  by_cases he : toLowerGo (removeSpacesGo s) = []
  · exact ⟨{}, by rw [if_pos he]⟩
  · obtain ⟨h, hp⟩ :=
      processDirectives_ignoreAll_ok {} (splitComma (toLowerGo (removeSpacesGo s)))
    exact ⟨h, by rw [if_neg he, hp]⟩

/-- C3: the lenient entry point never fails and returns exactly the header
that strict parse with both ignore options returns, and strict parse with
both ignore options returns a nil error on every input. -/
theorem C3_lenient_refines_strict (s : List Char) :
    ∃ h, ParseStrict s [IgnoreUnknownDirectives, IgnoreInvalidValues] = (some h, none) ∧
      Parse s = some h := by
  obtain ⟨h, hp⟩ := parse_ignoreAll s [IgnoreInvalidValues, IgnoreUnknownDirectives] rfl
  have h1 : parse s [IgnoreUnknownDirectives, IgnoreInvalidValues] =
      parse s [IgnoreInvalidValues, IgnoreUnknownDirectives] := rfl
  exact ⟨h, by rw [ParseStrict, h1, hp], by rw [Parse, hp]⟩

set_option maxHeartbeats 1000000 in
theorem processDirective_strict_cases (h : Header) (d : List Char) :
    (∃ h', processDirective {} h d = .ok h' ∧ classifyStrict d = none) ∨
    (∃ e, processDirective {} h d = .error e ∧ classifyStrict d = some e) := by
  rw [processDirective.eq_def]
  rcases hs : splitN2Eq d with ⟨tok, _ | vraw⟩
  · dsimp only
    split_ifs <;> first
      | exact absurd (by assumption) (by decide)
      | (left
         refine ⟨_, rfl, ?_⟩
         rw [classifyStrict, processDirective.eq_def, hs]
         dsimp only
         simp_all)
      | (right
         refine ⟨_, rfl, ?_⟩
         rw [classifyStrict, processDirective.eq_def, hs]
         dsimp only
         simp_all)
  · dsimp only
    cases hpd : parseDuration (trimSpaceGo vraw ++ ['s'])
    · right
      refine ⟨_, rfl, ?_⟩
      rw [classifyStrict, processDirective.eq_def, hs]
      dsimp only
      simp_all
    · dsimp only
      split_ifs <;> first
        | exact absurd (by assumption) (by decide)
        | (left
           refine ⟨_, rfl, ?_⟩
           rw [classifyStrict, processDirective.eq_def, hs]
           dsimp only
           simp_all)
        | (right
           refine ⟨_, rfl, ?_⟩
           rw [classifyStrict, processDirective.eq_def, hs]
           dsimp only
           simp_all)

theorem processDirectives_strict_firstError (h : Header) (ts : List (List Char))
    (e : ParseError) (hp : (processDirectives {} h ts).2 = some e) :
    (processDirectives {} h ts).1 = none ∧ ts.findSome? classifyStrict = some e := by
  induction ts generalizing h with
  | nil => simp [processDirectives] at hp
  | cons d rest ih =>
    rcases processDirective_strict_cases h d with ⟨h1, hd, hc⟩ | ⟨e1, hd, hc⟩
    · rw [processDirectives, hd] at hp ⊢
      dsimp only at hp ⊢
      obtain ⟨hnone, hfind⟩ := ih h1 hp
      exact ⟨hnone, by rw [List.findSome?_cons, hc]; exact hfind⟩
    · rw [processDirectives, hd] at hp ⊢
      dsimp only at hp ⊢
      exact ⟨rfl, by rw [List.findSome?_cons, hc]; exact hp⟩

/-- C5: whenever strict parse (no ignore options) returns an error, the
header result is `nil` (no partial header), and the error is exactly the
classification of the first offending token in left-to-right order
(`findSome?` returns the first token whose strict classification errors);
the `ParseError` value carries the offending token verbatim for an unknown
directive and the key plus raw value text for an invalid value. -/
theorem C5_strict_first_error (s : List Char) (e : ParseError)
    (herr : (ParseStrict s []).2 = some e) :
    (ParseStrict s []).1 = none ∧
    (splitComma (toLowerGo (removeSpacesGo s))).findSome? classifyStrict = some e := by
  simp only [ParseStrict, parse, List.foldl_nil] at herr ⊢
  by_cases he : toLowerGo (removeSpacesGo s) = []
  · rw [if_pos he] at herr
    simp at herr
  · rw [if_neg he] at herr ⊢
    exact processDirectives_strict_firstError {} _ e herr

/-- Witness for `C5_strict_first_error` at the input
`max-age=3600, must-revalidate, private, unknown`. -/
theorem C5_strict_first_error_witness :
    ((ParseStrict ("max-age=3600, must-revalidate, private, unknown".toList) []).2 =
      some (.unknownDirective ("unknown".toList))) ∧
    ((ParseStrict ("max-age=3600, must-revalidate, private, unknown".toList) []).1 = none ∧
      (splitComma (toLowerGo (removeSpacesGo
          ("max-age=3600, must-revalidate, private, unknown".toList)))).findSome?
        classifyStrict = some (.unknownDirective ("unknown".toList))) :=
  ⟨by decide, C5_strict_first_error _ _ (by decide)⟩

theorem processDirectives_append_ok (o : option) (h h' : Header)
    (xs ys : List (List Char)) (hxs : processDirectives o h xs = (some h', none)) :
    processDirectives o h (xs ++ ys) = processDirectives o h' ys := by
  induction xs generalizing h with
  | nil =>
    rw [processDirectives] at hxs
    obtain rfl : h = h' := by simpa using hxs
    rfl
  | cons d rest ih =>
    cases hd : processDirective o h d with
    | ok h1 =>
      rw [processDirectives, hd] at hxs
      dsimp only at hxs
      rw [List.cons_append, processDirectives, hd]
      dsimp only
      exact ih h1 hxs
    | error e =>
      rw [processDirectives, hd] at hxs
      dsimp only at hxs
      exact absurd hxs (by simp)

/-- C6: duplicates are never rejected and later occurrences overwrite
earlier ones.  Concretely, `Parse "max-age=1, max-age=2"` succeeds (also in
strict mode) with `MaxAge` = 2 seconds; in general, whatever header a prefix
of directives produced, appending a final `max-age=2` token overwrites the
`MaxAge` field with 2 seconds without error. -/
theorem C6_last_write_wins :
    Parse ("max-age=1, max-age=2".toList) = some { MaxAge := some 2000000000 } ∧
    ParseStrict ("max-age=1, max-age=2".toList) [] =
      (some { MaxAge := some 2000000000 }, none) ∧
    ∀ (o : option) (h h' : Header) (pre : List (List Char)),
      processDirectives o h pre = (some h', none) →
      processDirectives o h (pre ++ [dMaxAge ++ '=' :: ("2".toList)]) =
        (some { h' with MaxAge := some 2000000000 }, none) := by
  refine ⟨by decide, by decide, ?_⟩
  intro o h h' pre hpre
  rw [processDirectives_append_ok o h h' pre _ hpre]
  rfl

/-- Witness for `C6_last_write_wins` with the prefix `[max-age=1]`. -/
theorem C6_last_write_wins_witness :
    processDirectives {} {} [("max-age=1".toList)] =
      (some { MaxAge := some 1000000000 }, none) ∧
    processDirectives {} {} ([("max-age=1".toList)] ++ [dMaxAge ++ '=' :: ("2".toList)]) =
      (some { MaxAge := some 2000000000 }, none) :=
  ⟨by decide,
    C6_last_write_wins.2.2 {} {} { MaxAge := some 1000000000 } [("max-age=1".toList)]
      (by decide)⟩

theorem toLowerChar_ne_space (c : Char) (hc : c ≠ ' ') : toLowerChar c ≠ ' ' := by
  rw [toLowerChar]
  split_ifs with h
  · intro hcontra
    have h32 : (Char.ofNat (c.toNat + 32)).toNat = c.toNat + 32 :=
      toNat_ofNat_valid _ (by omega)
    rw [hcontra] at h32
    have : (' ').toNat = 32 := rfl
    omega
  · exact hc

theorem toLowerChar_bne_space (c : Char) : (toLowerChar c != ' ') = (c != ' ') := by
  by_cases hc : c = ' '
  · subst hc
    rfl
  · have h2 : toLowerChar c ≠ ' ' := toLowerChar_ne_space c hc
    rw [bne_iff_ne.mpr h2, bne_iff_ne.mpr hc]

theorem toLowerChar_idem (c : Char) : toLowerChar (toLowerChar c) = toLowerChar c := by
  by_cases h : 65 ≤ c.toNat ∧ c.toNat ≤ 90
  · have h2 : (toLowerChar c).toNat = c.toNat + 32 := by
      rw [toLowerChar, if_pos h, toNat_ofNat_valid _ (by omega)]
    conv_lhs => rw [toLowerChar]
    rw [h2, if_neg (by omega)]
  · have h1 : toLowerChar c = c := by rw [toLowerChar, if_neg h]
    conv_lhs => rw [toLowerChar]
    rw [h1, if_neg h]

theorem toLowerGo_removeSpaces_comm (s : List Char) :
    removeSpacesGo (toLowerGo s) = toLowerGo (removeSpacesGo s) := by
  rw [removeSpacesGo, toLowerGo, List.filter_map, removeSpacesGo, toLowerGo]
  congr 1
  exact List.filter_congr (fun c _ => toLowerChar_bne_space c)

theorem toLowerGo_idem (s : List Char) : toLowerGo (toLowerGo s) = toLowerGo s := by
  rw [toLowerGo, toLowerGo, List.map_map]
  congr 1
  funext c
  exact toLowerChar_idem c

theorem Parse_toLower (s : List Char) : Parse (toLowerGo s) = Parse s := by
  simp only [Parse, parse]
  rw [toLowerGo_removeSpaces_comm, toLowerGo_idem]

theorem Parse_space_insensitive (s t : List Char) :
    Parse (s ++ ' ' :: t) = Parse (s ++ t) := by
  simp only [Parse, parse, removeSpacesGo, List.filter_append, List.filter_cons,
    bne_self_eq_false]
  rfl

/-- C9: lenient parse is invariant under letter case and under inserting
spaces: the two concrete pairs of the claim coincide, and in general
lowering the input or inserting a space character anywhere never changes the
result, because the input is lowercased and all spaces are stripped before
tokenization. -/
theorem C9_case_and_whitespace_invariance :
    Parse ("MAX-AGE=60".toList) = Parse ("max-age=60".toList) ∧
    Parse ("max-age=60, private".toList) = Parse ("max-age = 60 , private".toList) ∧
    (∀ s : List Char, Parse (toLowerGo s) = Parse s) ∧
    (∀ s t : List Char, Parse (s ++ ' ' :: t) = Parse (s ++ t)) :=
  ⟨by decide, by decide, Parse_toLower, Parse_space_insensitive⟩

end cachecontrolheader
